import Mathlib

/-
Verification of the acl-operator controllers (controllers/acl_controller.go and
controllers/tsuruappadress_controller.go) against their natural-language
specification.  The Go code is shallowly embedded: pure helpers become Lean
functions, Kubernetes client effects become explicit state passing over lists
of stored objects, and external collaborators (tsuru API, DNS resolver,
service cache lookups) become oracle parameters.  Go machine integers are
modelled as Nat with explicit reduction modulo 2^32 where overflow matters.
-/

set_option maxRecDepth 40000

namespace AclOp

/-! ## 32-bit arithmetic helpers (Go uint32 semantics, crypto/sha256) -/

/-- Reduction modulo 2^32, modelling Go uint32 arithmetic. -/
def w32 (n : Nat) : Nat := n % 4294967296

/-- Rotation of a 32-bit word to the right by n bits. -/
def rotr32 (x n : Nat) : Nat := w32 ((x >>> n) ||| (x <<< (32 - n)))

def bigS0 (x : Nat) : Nat := rotr32 x 2 ^^^ rotr32 x 13 ^^^ rotr32 x 22

def bigS1 (x : Nat) : Nat := rotr32 x 6 ^^^ rotr32 x 11 ^^^ rotr32 x 25

def smallS0 (x : Nat) : Nat := rotr32 x 7 ^^^ rotr32 x 18 ^^^ (x >>> 3)

def smallS1 (x : Nat) : Nat := rotr32 x 17 ^^^ rotr32 x 19 ^^^ (x >>> 10)

def chF (e f g : Nat) : Nat := (e &&& f) ^^^ ((4294967295 ^^^ e) &&& g)

def majF (a b c : Nat) : Nat := (a &&& b) ^^^ (a &&& c) ^^^ (b &&& c)

/-- The SHA-256 round constant table (decimal rendering of the 64 standard
words). -/
def sha256K : List Nat :=
  [1116352408, 1899447441, 3049323471, 3921009573, 961987163,
   1508970993, 2453635748, 2870763221, 3624381080, 310598401,
   607225278, 1426881987, 1925078388, 2162078206, 2614888103,
   3248222580, 3835390401, 4022224774, 264347078, 604807628,
   770255983, 1249150122, 1555081692, 1996064986, 2554220882,
   2821834349, 2952996808, 3210313671, 3336571891, 3584528711,
   113926993, 338241895, 666307205, 773529912, 1294757372,
   1396182291, 1695183700, 1986661051, 2177026350, 2456956037,
   2730485921, 2820302411, 3259730800, 3345764771, 3516065817,
   3600352804, 4094571909, 275423344, 430227734, 506948616,
   659060556, 883997877, 958139571, 1322822218, 1537002063,
   1747873779, 1955562222, 2024104815, 2227730452, 2361852424,
   2428436474, 2756734187, 3204031479, 3329325298]

/-- The SHA-256 working state (eight 32-bit words). -/
structure Hash8 where
  a : Nat
  b : Nat
  c : Nat
  d : Nat
  e : Nat
  f : Nat
  g : Nat
  h : Nat
deriving DecidableEq, Repr

/-- The SHA-256 initial hash value. -/
def initH : Hash8 :=
  ⟨1779033703, 3144134277, 1013904242, 2773480762,
   1359893119, 2600822924, 528734635, 1541459225⟩

/-- One SHA-256 compression round, on a pair (round constant, schedule word). -/
def compressStep (kw : Nat × Nat) (s : Hash8) : Hash8 :=
  let t1 := w32 (s.h + bigS1 s.e + chF s.e s.f s.g + kw.1 + kw.2)
  let t2 := w32 (bigS0 s.a + majF s.a s.b s.c)
  ⟨w32 (t1 + t2), s.a, s.b, s.c, w32 (s.d + t1), s.e, s.f, s.g⟩

/-- Extend a 16-word block to the 64-word message schedule. -/
def scheduleRounds (block : Array Nat) : Array Nat :=
  (List.range 48).foldl
    (fun acc j =>
      let i := j + 16
      acc.push (w32 (acc.getD (i - 16) 0 + smallS0 (acc.getD (i - 15) 0) +
        acc.getD (i - 7) 0 + smallS1 (acc.getD (i - 2) 0))))
    block

/-- SHA-256 compression of one 512-bit block into the running state. -/
def compressBlock (s : Hash8) (block : Array Nat) : Hash8 :=
  let ws := scheduleRounds block
  let t := (List.range 64).foldl
    (fun st i => compressStep (sha256K.getD i 0, ws.getD i 0) st) s
  ⟨w32 (s.a + t.a), w32 (s.b + t.b), w32 (s.c + t.c), w32 (s.d + t.d),
   w32 (s.e + t.e), w32 (s.f + t.f), w32 (s.g + t.g), w32 (s.h + t.h)⟩

/-- Big-endian bytes of a 64-bit length field. -/
def be64 (n : Nat) : List Nat :=
  [(n >>> 56) &&& 255, (n >>> 48) &&& 255, (n >>> 40) &&& 255,
   (n >>> 32) &&& 255, (n >>> 24) &&& 255, (n >>> 16) &&& 255,
   (n >>> 8) &&& 255, n &&& 255]

/-- Big-endian bytes of a 32-bit word. -/
def be32 (n : Nat) : List Nat :=
  [(n >>> 24) &&& 255, (n >>> 16) &&& 255, (n >>> 8) &&& 255, n &&& 255]

/-- SHA-256 message padding: append 0x80, zero fill to 56 mod 64, then the
64-bit big-endian bit length. -/
def padMessage (bytes : List Nat) : List Nat :=
  let z := (119 - bytes.length % 64) % 64
  bytes ++ 128 :: (List.replicate z 0 ++ be64 (8 * bytes.length))

/-- Group bytes four at a time into big-endian 32-bit words. -/
def bytesToWords : List Nat → List Nat
  | b0 :: b1 :: b2 :: b3 :: rest =>
      ((b0 <<< 24) ||| (b1 <<< 16) ||| (b2 <<< 8) ||| b3) :: bytesToWords rest
  | _ => []

/-- Group words sixteen at a time into blocks (a padded message always holds
a whole number of sixteen-word blocks). -/
def wordsToBlocks : List Nat → List (Array Nat)
  | w0 :: w1 :: w2 :: w3 :: w4 :: w5 :: w6 :: w7 ::
      w8 :: w9 :: w10 :: w11 :: w12 :: w13 :: w14 :: w15 :: rest =>
      #[w0, w1, w2, w3, w4, w5, w6, w7, w8, w9, w10, w11, w12, w13, w14, w15] ::
        wordsToBlocks rest
  | _ => []

/-- SHA-256 of a byte sequence, as 32 bytes. -/
def sha256Bytes (bytes : List Nat) : List Nat :=
  let s := (wordsToBlocks (bytesToWords (padMessage bytes))).foldl compressBlock initH
  be32 s.a ++ be32 s.b ++ be32 s.c ++ be32 s.d ++
    be32 s.e ++ be32 s.f ++ be32 s.g ++ be32 s.h

/-- Lowercase hexadecimal digit. -/
def hexDigit (n : Nat) : Char :=
  if n < 10 then Char.ofNat (48 + n) else Char.ofNat (87 + n)

/-- Lowercase hexadecimal rendering of a byte list (Go fmt %x on a byte slice). -/
def hexOfBytes : List Nat → List Char
  | [] => []
  | b :: bs => hexDigit (b >>> 4) :: hexDigit (b &&& 15) :: hexOfBytes bs

/-- UTF-8 encoding of one character. -/
def utf8Bytes (c : Char) : List Nat :=
  let n := c.toNat
  if n < 128 then [n]
  else if n < 2048 then [192 ||| (n >>> 6), 128 ||| (n &&& 63)]
  else if n < 65536 then
    [224 ||| (n >>> 12), 128 ||| ((n >>> 6) &&& 63), 128 ||| (n &&& 63)]
  else
    [240 ||| (n >>> 18), 128 ||| ((n >>> 12) &&& 63),
     128 ||| ((n >>> 6) &&& 63), 128 ||| (n &&& 63)]

/-- UTF-8 encoding of a character list. -/
def utf8Encode : List Char → List Nat
  | [] => []
  | c :: cs => utf8Bytes c ++ utf8Encode cs

/-- Embeds sha256String (acl_controller.go): the lowercase-hex SHA-256 digest
of the UTF-8 bytes of a string. -/
def sha256String (s : String) : String :=
  ⟨hexOfBytes (sha256Bytes (utf8Encode s.data))⟩

/-! ## Identity Namer: validResourceName (acl_controller.go) -/

/-- Lowercase ASCII letter or digit. -/
def isLowerAlnum (c : Char) : Bool :=
  ('a' ≤ c && c ≤ 'z') || ('0' ≤ c && c ≤ '9')

/-- A character legal inside a DNS-1123 label body. -/
def isLabelChar (c : Char) : Bool := isLowerAlnum c || c == '-'

/-- One DNS-1123 label: nonempty, label characters only, starts and ends with
a lowercase alphanumeric. -/
def labelOk (l : List Char) : Bool :=
  !l.isEmpty && isLowerAlnum (l.headD '-') && isLowerAlnum (l.getLastD '-') &&
    l.all isLabelChar

/-- Split a character list at every dot, keeping empty segments. -/
def splitOnDot : List Char → List (List Char)
  | [] => [[]]
  | c :: rest =>
      if c == '.' then [] :: splitOnDot rest
      else
        match splitOnDot rest with
        | [] => [[c]]
        | p :: ps => (c :: p) :: ps

/-- Embeds k8s.io/apimachinery validation.IsDNS1123Subdomain returning no
errors: length at most 253 and each dot-separated label matches the DNS-1123
label grammar. -/
def isDNS1123Subdomain (s : String) : Bool :=
  s.data.length ≤ 253 && (splitOnDot s.data).all labelOk

/-- Character kept unchanged by the sanitizing regex `[^a-z0-9.-]` → `-`. -/
def isKeptChar (c : Char) : Bool := isLowerAlnum c || c == '.' || c == '-'

/-- Replace every character outside `[a-z0-9.-]` with a dash. -/
def sanitizeChars (s : String) : List Char :=
  s.data.map (fun c => if isKeptChar c then c else '-')

/-- Strip the leading run of characters outside `[a-z0-9]`. -/
def dropLeadingNonAlnum (l : List Char) : List Char :=
  l.dropWhile (fun c => !isLowerAlnum c)

/-- Embeds validResourceName (acl_controller.go): return the name unchanged
when it is already a legal DNS-1123 subdomain; otherwise sanitize it, strip
the illegal leading run, and append a dash plus the first ten hex characters
of the SHA-256 digest of the original name, truncating the sanitized prefix
to 242 characters when it is 242 characters long or longer. -/
def validResourceName (name : String) : String :=
  if isDNS1123Subdomain name then name
  else
    let truncatedName := dropLeadingNonAlnum (sanitizeChars name)
    let digest := (sha256String name).data.take 10
    if truncatedName.length < 253 - 11 then
      ⟨truncatedName ++ '-' :: digest⟩
    else
      ⟨truncatedName.take (253 - 11) ++ '-' :: digest⟩

/-! ## Data model (api/v1alpha1 shapes as used by the controllers) -/

/-- A protocol/port pair from the ACL spec. -/
structure ProtoPort where
  protocol : String
  number : Nat
deriving DecidableEq, Repr

/-- Destination variant: external DNS name with optional ports. -/
structure ACLSpecExternalDNS where
  name : String
  ports : List ProtoPort
deriving DecidableEq, Repr

/-- Destination variant: external IP or CIDR with optional ports. -/
structure ACLSpecExternalIP where
  ip : String
  ports : List ProtoPort
deriving DecidableEq, Repr

/-- Managed rpaas instance reference.  The field inst models the Go field
Instance (a reserved word in Lean). -/
structure ACLSpecRpaasInstance where
  serviceName : String
  inst : String
deriving DecidableEq, Repr

/-- One ACL destination: at most one variant is set, mirroring the Go struct
whose unset string fields are empty and unset pointer fields are nil. -/
structure ACLSpecDestination where
  tsuruApp : String
  tsuruAppPool : String
  externalDNS : Option ACLSpecExternalDNS
  externalIP : Option ACLSpecExternalIP
  rpaasInstance : Option ACLSpecRpaasInstance
deriving DecidableEq, Repr

/-- The ACL source selector descriptor. -/
structure ACLSpecSource where
  tsuruApp : String
  rpaasInstance : Option ACLSpecRpaasInstance
deriving DecidableEq, Repr

/-- The ACL spec: one source and a list of destinations. -/
structure ACLSpec where
  source : ACLSpecSource
  destinations : List ACLSpecDestination
deriving DecidableEq, Repr

/-- The ACL status sub-record. -/
structure ACLStatus where
  ready : Bool
  reason : String
  networkPolicy : String
deriving DecidableEq, Repr

/-- A stored ACL object (ObjectMeta namespace/name plus spec and status). -/
structure ACL where
  ns : String
  name : String
  spec : ACLSpec
  status : ACLStatus
deriving DecidableEq, Repr

/-- The zero-valued ACL the Go code keeps using when the Get reports
not-found. -/
def zeroACL : ACL :=
  ⟨"", "", ⟨⟨"", none⟩, []⟩, ⟨false, "", ""⟩⟩

/-- A label selector (only MatchLabels is used by the controllers). -/
structure LabelSelector where
  matchLabels : List (String × String)
deriving DecidableEq, Repr

/-- An IPBlock peer field. -/
structure IPBlock where
  cidr : String
deriving DecidableEq, Repr

/-- A NetworkPolicy egress peer. -/
structure NetworkPolicyPeer where
  podSelector : Option LabelSelector
  namespaceSelector : Option LabelSelector
  ipBlock : Option IPBlock
deriving DecidableEq, Repr

/-- A NetworkPolicy port entry. -/
structure NetworkPolicyPort where
  protocol : Option String
  port : Nat
deriving DecidableEq, Repr

/-- One egress rule: peers and ports.  The field toPeers models the Go field
To (a reserved word in Lean). -/
structure NetworkPolicyEgressRule where
  toPeers : List NetworkPolicyPeer
  ports : List NetworkPolicyPort
deriving DecidableEq, Repr

/-- Policy type constants. -/
inductive PolicyType where
  | ingress
  | egress
deriving DecidableEq, Repr

/-- The owner reference written by metav1.NewControllerRef. -/
structure OwnerReference where
  kind : String
  name : String
  controller : Bool
deriving DecidableEq, Repr

/-- The stored NetworkPolicy object as used by the ACL reconciler.  The flag
creationTimestampIsZero distinguishes a fresh zero-valued object from one
fetched from the store. -/
structure NetworkPolicy where
  ns : String
  name : String
  ownerReferences : List OwnerReference
  policyTypes : List PolicyType
  podSelector : LabelSelector
  egress : List NetworkPolicyEgressRule
  creationTimestampIsZero : Bool
deriving DecidableEq, Repr

/-- The zero-valued NetworkPolicy used when the Get reports not-found. -/
def zeroNP : NetworkPolicy :=
  ⟨"", "", [], [], ⟨[]⟩, [], true⟩

/-- A Kubernetes Service as consumed by the service cache: its namespace and
spec selector. -/
structure Service where
  ns : String
  selector : List (String × String)
deriving DecidableEq, Repr

/-! ## Pure helpers of the ACL reconciler -/

/-- Embeds isWildCard (acl_controller.go): nonempty name whose first byte is
a dot. -/
def isWildCard (name : String) : Bool :=
  name != "" && name.front == '.'

/-- Go strings.Contains with a single-character needle. -/
def containsChar (s : String) (c : Char) : Bool := s.data.contains c

/-- Go strings.HasSuffix. -/
def hasSuffix (s suf : String) : Bool := suf.data.isSuffixOf s.data

/-- Go strings.Split(s, "/")[0]: the prefix before the first slash. -/
def beforeSlash (s : String) : String :=
  ⟨s.data.takeWhile (fun c => c != '/')⟩

/-- Embeds the ports helper (acl_controller.go): map each ProtoPort to a
NetworkPolicyPort, uppercasing a nonempty protocol. -/
def portsOf (p : List ProtoPort) : List NetworkPolicyPort :=
  p.map (fun port =>
    { protocol := if port.protocol != "" then some port.protocol.toUpper else none,
      port := port.number })

/-- Embeds podSelectorForTsuruApp. -/
def podSelectorForTsuruApp (tsuruApp : String) : List (String × String) :=
  [("tsuru.io/app-name", tsuruApp)]

/-- Embeds podSelectorForRpasInstance. -/
def podSelectorForRpasInstance (ri : ACLSpecRpaasInstance) : List (String × String) :=
  [("rpaas.extensions.tsuru.io/instance-name", ri.inst),
   ("rpaas.extensions.tsuru.io/service-name", ri.serviceName)]

/-- Embeds podSelectorForSource: none models the nil map returned for an
empty source. -/
def podSelectorForSource (source : ACLSpecSource) : Option (List (String × String)) :=
  if source.tsuruApp != "" then some (podSelectorForTsuruApp source.tsuruApp)
  else
    match source.rpaasInstance with
    | some ri => some (podSelectorForRpasInstance ri)
    | none => none

/-- Embeds egressRulesForExternalIP: complete a bare IP to a /32 or /128
CIDR and emit a single rule with one IPBlock peer. -/
def egressRulesForExternalIP (externalIP : ACLSpecExternalIP) :
    List NetworkPolicyEgressRule :=
  let cidr :=
    if !containsChar externalIP.ip '/' then
      if containsChar externalIP.ip ':' then externalIP.ip ++ "/128"
      else if containsChar externalIP.ip '.' then externalIP.ip ++ "/32"
      else externalIP.ip
    else externalIP.ip
  [{ toPeers := [⟨none, none, some ⟨cidr⟩⟩],
     ports := portsOf externalIP.ports }]

/-- Embeds egressRulesForTsuruAppPool: a single rule selecting the pool by
label. -/
def egressRulesForTsuruAppPool (tsuruAppPool : String) :
    List NetworkPolicyEgressRule :=
  [{ toPeers := [⟨some ⟨[("tsuru.io/app-pool", tsuruAppPool)]⟩, none, none⟩],
     ports := [] }]

/-! ## Address Cache enrichment: fillPodSelectorByCIDR -/

/-- The selector/namespace peer appended for a service found by IP. -/
def enrichedPeer (svc : Service) : NetworkPolicyPeer :=
  { podSelector := some ⟨svc.selector⟩,
    namespaceSelector := some ⟨[("name", svc.ns)]⟩,
    ipBlock := none }

/-- The inner loop of fillPodSelectorByCIDR: collect, in order, one enriched
peer per single-host IP-literal peer whose address the cache resolves to an
owning service; a cache error aborts. -/
def enrichmentsFor (getByIP : String → Except String (Option Service)) :
    List NetworkPolicyPeer → Except String (List NetworkPolicyPeer)
  | [] => .ok []
  | peer :: rest =>
      match peer.ipBlock with
      | some b =>
          if hasSuffix b.cidr "/32" || hasSuffix b.cidr "/128" then
            match getByIP (beforeSlash b.cidr) with
            | .error e => .error e
            | .ok none => enrichmentsFor getByIP rest
            | .ok (some svc) =>
                match enrichmentsFor getByIP rest with
                | .error e => .error e
                | .ok tl => .ok (enrichedPeer svc :: tl)
          else enrichmentsFor getByIP rest
      | none => enrichmentsFor getByIP rest

/-- Embeds fillPodSelectorByCIDR (acl_controller.go): extend every rule's
peer list with the enriched peers computed from its own peers; a cache error
aborts the whole pass. -/
def fillPodSelectorByCIDR (getByIP : String → Except String (Option Service)) :
    List NetworkPolicyEgressRule → Except String (List NetworkPolicyEgressRule)
  | [] => .ok []
  | rule :: rest =>
      match enrichmentsFor getByIP rule.toPeers with
      | .error e => .error e
      | .ok extra =>
          match fillPodSelectorByCIDR getByIP rest with
          | .error e => .error e
          | .ok tl => .ok ({ rule with toPeers := rule.toPeers ++ extra } :: tl)

/-! ## ACLDNSEntry store and egressRulesForExternalDNS -/

/-- One resolved address in an ACLDNSEntry status. -/
structure DNSEntryIP where
  address : String
deriving DecidableEq, Repr

/-- The ACLDNSEntry status: readiness and resolved addresses. -/
structure ACLDNSEntryStatus where
  ready : Bool
  ips : List DNSEntryIP
deriving DecidableEq, Repr

/-- A stored (cluster-scoped) ACLDNSEntry object. -/
structure ACLDNSEntry where
  name : String
  host : String
  status : ACLDNSEntryStatus
deriving DecidableEq, Repr

/-- The sub-reconciler invoked synchronously by ensureDNSEntry, as an oracle
state transition on the DNS entry store (ACLDNSEntryReconciler is outside the
excerpted sources). -/
def DNSSubReconcile : Type := List ACLDNSEntry → String → List ACLDNSEntry

/-- Embeds ensureDNSEntry (acl_controller.go): look the entry up under the
name derived by validResourceName; when absent, create it with the original
host as its spec, synchronously run the DNS sub-reconciler, and fetch the
entry again. -/
def ensureDNSEntry (subRec : DNSSubReconcile) (entries : List ACLDNSEntry)
    (host : String) : List ACLDNSEntry × Except String ACLDNSEntry :=
  let resourceName := validResourceName host
  match entries.find? (fun e => e.name == resourceName) with
  | some e => (entries, .ok e)
  | none =>
      let created : ACLDNSEntry := ⟨resourceName, host, ⟨false, []⟩⟩
      let entries2 := subRec (entries ++ [created]) resourceName
      match entries2.find? (fun e => e.name == resourceName) with
      | some e => (entries2, .ok e)
      | none => (entries2, .error "acldnsentries.extensions.tsuru.io not found")

/-- The CIDR completion applied to each resolved DNS address: /128 for an
address containing a colon, /32 for one containing a dot, skip otherwise. -/
def cidrForAddress (a : String) : Option String :=
  if containsChar a ':' then some (a ++ "/128")
  else if containsChar a '.' then some (a ++ "/32")
  else none

/-- The peer list built from a ready DNS entry status. -/
def peersForDNSStatus (ips : List DNSEntryIP) : List NetworkPolicyPeer :=
  ips.foldr
    (fun ip acc =>
      match cidrForAddress ip.address with
      | some cidr => ⟨none, none, some ⟨cidr⟩⟩ :: acc
      | none => acc)
    []

/-- Embeds egressRulesForExternalDNS (acl_controller.go): a wildcard name
returns no rules and no error before any store access; otherwise the entry is
ensured, an unready entry contributes no rules, and a ready one contributes a
single rule with one single-host CIDR peer per usable address. -/
def egressRulesForExternalDNS (subRec : DNSSubReconcile)
    (entries : List ACLDNSEntry) (externalDNS : ACLSpecExternalDNS) :
    List ACLDNSEntry × Except String (List NetworkPolicyEgressRule) :=
  if isWildCard externalDNS.name then (entries, .ok [])
  else
    match ensureDNSEntry subRec entries externalDNS.name with
    | (es, .error e) => (es, .error e)
    | (es, .ok entry) =>
        if !entry.status.ready then (es, .ok [])
        else
          (es, .ok [{ toPeers := peersForDNSStatus entry.status.ips,
                      ports := portsOf externalDNS.ports }])

/-! ## TsuruAppAddress get-or-create (ensureTsuruAppAddress) -/

/-- The spec of a TsuruAppAddress record: the app name the resolver will
query the platform API for. -/
structure TsuruAppAddressSpec where
  name : String
deriving DecidableEq, Repr

/-- The status shape shared by the address records consumed by the ACL
reconciler. -/
structure ResourceAddressStatus where
  ready : Bool
  ips : List String
deriving DecidableEq, Repr

/-- A stored TsuruAppAddress object. -/
structure TsuruAppAddress where
  name : String
  spec : TsuruAppAddressSpec
  status : ResourceAddressStatus
deriving DecidableEq, Repr

/-- The sub-reconciler invoked synchronously by ensureTsuruAppAddress, as an
oracle state transition on the record store. -/
def AppAddressSubReconcile : Type := List TsuruAppAddress → String → List TsuruAppAddress

/-- Embeds ensureTsuruAppAddress (acl_controller.go): look the record up
under the name derived by validResourceName; when absent, create it with the
derived resource name as both its object name and its spec name (sic: the
source writes Spec.Name = resourceName, not the original appName),
synchronously run the sub-reconciler, and fetch the record again. -/
def ensureTsuruAppAddress (subRec : AppAddressSubReconcile)
    (records : List TsuruAppAddress) (appName : String) :
    List TsuruAppAddress × Except String TsuruAppAddress :=
  let resourceName := validResourceName appName
  match records.find? (fun r => r.name == resourceName) with
  | some r => (records, .ok r)
  | none =>
      let created : TsuruAppAddress := ⟨resourceName, ⟨resourceName⟩, ⟨false, []⟩⟩
      let records2 := subRec (records ++ [created]) resourceName
      match records2.find? (fun r => r.name == resourceName) with
      | some r => (records2, .ok r)
      | none => (records2, .error "tsuruappaddresses.extensions.tsuru.io not found")

/-! ## The platform-application resolver (tsuruappadress_controller.go) -/

/-- One router endpoint reported by the tsuru API: a single address and an
optional multi-address list. -/
structure Router where
  address : String
  addresses : List String
deriving DecidableEq, Repr

/-- The application info returned by the tsuru API. -/
structure TsuruAppInfo where
  routers : List Router
deriving DecidableEq, Repr

/-- The TsuruAppAdress status written by the resolver. -/
structure TsuruAppAdressStatus where
  ready : Bool
  routerIPs : List String
  updatedAt : String
deriving DecidableEq, Repr

/-- A stored TsuruAppAdress record (the resource reconciled by
tsuruappadress_controller.go). -/
structure TsuruAppAdress where
  name : String
  specName : String
  status : TsuruAppAdressStatus
deriving DecidableEq, Repr

/-- External collaborators of the platform-application resolver: the tsuru
API, the DNS resolver (already reduced to the IP strings it yields), the
URLToHost helper from the tsuru library, and the wall clock. -/
structure AppResolverEnv where
  appInfo : String → Except String TsuruAppInfo
  lookupIPAddr : String → Except String (List String)
  urlToHost : String → String
  now : String

/-- The hostname list gathered from the routers, in order: each router
contributes its multi-address list when nonempty and its single address
otherwise, every entry passed through URLToHost. -/
def routerAddrs (env : AppResolverEnv) : List Router → List String
  | [] => []
  | r :: rs =>
      (if r.addresses.length > 0 then r.addresses.map env.urlToHost
       else [env.urlToHost r.address]) ++ routerAddrs env rs

/-- Set insertion into the list modelling the Go foundIPs map. -/
def insertIP (l : List String) (ip : String) : List String :=
  if ip ∈ l then l else l ++ [ip]

/-- Byte-wise lexicographic comparison of byte lists. -/
def bytesLe : List Nat → List Nat → Bool
  | [], _ => true
  | _ :: _, [] => false
  | a :: as, b :: bs =>
      if a < b then true else if b < a then false else bytesLe as bs

/-- Go string comparison: byte-wise lexicographic order on the UTF-8
bytes. -/
def strLe (s t : String) : Bool := bytesLe (utf8Encode s.data) (utf8Encode t.data)

/-- Lexicographic sort (Go sort.Strings on the collected map keys). -/
def sortStrings (l : List String) : List String :=
  List.insertionSort (fun a b => strLe a b = true) l

/-- Whether a successful lookup of the given hostname yielded the given IP. -/
def lookupHas (env : AppResolverEnv) (addr ip : String) : Bool :=
  match env.lookupIPAddr addr with
  | .error _ => false
  | .ok ips => ips.contains ip

/-- The deduplicating aggregation loop over the gathered hostnames: failed
lookups are skipped, successful ones contribute every returned IP once. -/
def gatherIPs (env : AppResolverEnv) (addrs : List String) : List String :=
  addrs.foldl
    (fun acc addr =>
      match env.lookupIPAddr addr with
      | .error _ => acc
      | .ok ips => ips.foldl insertIP acc)
    []

/-- The deduplicated, sorted IP list the resolver computes for an app info. -/
def resolvedIPsFor (env : AppResolverEnv) (info : TsuruAppInfo) : List String :=
  sortStrings (gatherIPs env (routerAddrs env info.routers))

/-- Replace the status of the record with the given name. -/
def updateAppAdressStatus (records : List TsuruAppAdress) (name : String)
    (st : TsuruAppAdressStatus) : List TsuruAppAdress :=
  records.map (fun r => if r.name == name then { r with status := st } else r)

/-- The outcome of one run of the platform-application resolver: the record
store afterwards, the status writes issued, and the error returned. -/
structure AppAdressOutcome where
  records : List TsuruAppAdress
  statusWrites : List TsuruAppAdressStatus
  err : Option String
deriving Repr

/-- Embeds TsuruAppAdressReconciler.Reconcile
(tsuruappadress_controller.go): fetch the record (not-found is a silent
no-op), query the tsuru API for the app named by the record spec (an API
error aborts), gather and resolve the router hostnames, and write the status
only when the record is not yet ready or the sorted deduplicated IP list
changed. -/
def TsuruAppAdressReconcile (env : AppResolverEnv)
    (records : List TsuruAppAdress) (reqName : String) : AppAdressOutcome :=
  match records.find? (fun r => r.name == reqName) with
  | none => ⟨records, [], none⟩
  | some appAddress =>
      match env.appInfo appAddress.specName with
      | .error e => ⟨records, [], some e⟩
      | .ok info =>
          let resolvedIPs := resolvedIPsFor env info
          if !appAddress.status.ready || resolvedIPs ≠ appAddress.status.routerIPs then
            let newStatus : TsuruAppAdressStatus := ⟨true, resolvedIPs, env.now⟩
            ⟨updateAppAdressStatus records reqName newStatus, [newStatus], none⟩
          else ⟨records, [], none⟩

/-! ## The top-level Policy Reconciler (ACLReconciler.Reconcile) -/

/-- The controller-runtime result: requeue flag and requeue-after duration in
seconds. -/
structure CtrlResult where
  requeue : Bool
  requeueAfterSeconds : Nat
deriving DecidableEq, Repr

/-- Embeds the package-level requeueAfter (time.Minute * 10), in seconds. -/
def requeueAfter : Nat := 600

/-- The empty ctrl.Result{} returned on every early exit. -/
def emptyResult : CtrlResult := ⟨false, 0⟩

/-- A write issued against the object store during one reconcile pass. -/
inductive WriteEvent where
  | npCreate (np : NetworkPolicy)
  | npUpdate (np : NetworkPolicy)
  | aclStatusUpdate (status : ACLStatus)
deriving DecidableEq, Repr

/-- The slice of the object store the ACL reconciler touches. -/
structure ClusterState where
  acls : List ACL
  networkPolicies : List NetworkPolicy
deriving DecidableEq, Repr

/-- Namespaced lookup of an ACL object. -/
def getACL (st : ClusterState) (ns name : String) : Option ACL :=
  st.acls.find? (fun a => a.ns == ns && a.name == name)

/-- Namespaced lookup of a NetworkPolicy object. -/
def getNP (st : ClusterState) (ns name : String) : Option NetworkPolicy :=
  st.networkPolicies.find? (fun p => p.ns == ns && p.name == name)

/-- Status().Update on an ACL: replace the status of the stored object with
the matching namespace and name. -/
def putACLStatus (st : ClusterState) (ns name : String) (status : ACLStatus) :
    ClusterState :=
  { st with
    acls := st.acls.map
      (fun a => if a.ns == ns && a.name == name then { a with status := status } else a) }

/-- Create of a NetworkPolicy: the stored copy acquires a creation
timestamp. -/
def createNP (st : ClusterState) (np : NetworkPolicy) : ClusterState :=
  { st with
    networkPolicies :=
      st.networkPolicies ++ [{ np with creationTimestampIsZero := false }] }

/-- Update of a NetworkPolicy: replace the stored object with the matching
namespace and name. -/
def updateNP (st : ClusterState) (np : NetworkPolicy) : ClusterState :=
  { st with
    networkPolicies := st.networkPolicies.map
      (fun p => if p.ns == np.ns && p.name == np.name then np else p) }

/-- The owner reference written by metav1.NewControllerRef(acl, gvk). -/
def newControllerRef (acl : ACL) : OwnerReference := ⟨"ACL", acl.name, true⟩

/-- Embeds setUnreadyStatus (acl_controller.go): flip the in-memory status to
unready with the given reason and issue one status update (modelled as always
succeeding). -/
def setUnreadyStatus (st : ClusterState) (acl : ACL) (reason : String) :
    ClusterState × List WriteEvent :=
  let newStatus : ACLStatus := { acl.status with ready := false, reason := reason }
  (putACLStatus st acl.ns acl.name newStatus, [.aclStatusUpdate newStatus])

/-- The status value written by setUnreadyStatus: the old status with the
ready flag cleared and the reason replaced. -/
def unreadyStatusOf (old : ACLStatus) (reason : String) : ACLStatus :=
  { old with ready := false, reason := reason }

/-- Modelled from the spec: the JSON rendering of a destination that the
Unready reason embeds (the reason embeds the failing destination); the
v1alpha1 struct tags driving encoding/json are outside the excerpted
sources. -/
def destinationJSON (d : ACLSpecDestination) : String :=
  let fields :=
    (if d.tsuruApp != "" then ["\"tsuruApp\":\"" ++ d.tsuruApp ++ "\""] else []) ++
    (if d.tsuruAppPool != "" then ["\"tsuruAppPool\":\"" ++ d.tsuruAppPool ++ "\""] else []) ++
    (match d.externalDNS with
     | some dns => ["\"externalDNS\":\x7b\"name\":\"" ++ dns.name ++ "\"\x7d"]
     | none => []) ++
    (match d.externalIP with
     | some eip => ["\"externalIP\":\x7b\"ip\":\"" ++ eip.ip ++ "\"\x7d"]
     | none => []) ++
    (match d.rpaasInstance with
     | some ri =>
        ["\"rpaasInstance\":\x7b\"serviceName\":\"" ++ ri.serviceName ++
         "\",\"instance\":\"" ++ ri.inst ++ "\"\x7d"]
     | none => [])
  "\x7b" ++ String.intercalate "," fields ++ "\x7d"

/-- The effectful collaborators of one reconcile pass, as pure oracles: the
per-destination rule computation (the dispatch of egressRulesForDestination
together with the address resolvers it consults) and the service cache
lookup. -/
structure ACLCollab where
  egressForDestination :
    ACLSpecDestination → Except String (List NetworkPolicyEgressRule)
  getByIP : String → Except String (Option Service)

/-- The destination loop of Reconcile: destinations are processed in order,
contributions are concatenated, and the first failure aborts carrying the
failing destination and its error. -/
def computeEgressRules (c : ACLCollab) :
    List ACLSpecDestination →
    Except (ACLSpecDestination × String) (List NetworkPolicyEgressRule)
  | [] => .ok []
  | d :: ds =>
      match c.egressForDestination d with
      | .error e => .error (d, e)
      | .ok rs =>
          match computeEgressRules c ds with
          | .error p => .error p
          | .ok rest => .ok (rs ++ rest)

/-- The ACL the pass operates on: the stored object, or the zero value when
the Get reports not-found (the source keeps going in that case). -/
def fetchedACL (st : ClusterState) (reqNs reqName : String) : ACL :=
  (getACL st reqNs reqName).getD zeroACL

/-- The NetworkPolicy name used by the pass: the name recorded in the status
or the conventional acl-prefixed name. -/
def npNameFor (acl : ACL) (reqName : String) : String :=
  if acl.status.networkPolicy == "" then "acl-" ++ reqName
  else acl.status.networkPolicy

/-- The outcome of one top-level reconcile pass. -/
structure ACLOutcome where
  state : ClusterState
  writes : List WriteEvent
  result : CtrlResult
  err : Option String
deriving Repr

/-- Embeds ACLReconciler.Reconcile (acl_controller.go): fetch the ACL (a
missing object degrades to the zero value), fetch the NetworkPolicy under the
recorded or conventional name, normalize owner reference, policy types, pod
selector and egress rules while tracking whether anything changed, abort to
Unready on a missing selector, on the first failing destination, on a service
cache failure or on an empty rule list, then create or update the policy only
when needed, reflect readiness into the ACL status, and requeue after the
fixed interval only on the completed path. -/
def ACLReconcile (c : ACLCollab) (st : ClusterState) (reqNs reqName : String) :
    ACLOutcome :=
  let acl := fetchedACL st reqNs reqName
  let networkPolicyName := npNameFor acl reqName
  let np0 := (getNP st reqNs networkPolicyName).getD zeroNP
  let np1 := { np0 with ns := acl.ns, name := networkPolicyName }
  let s2 :=
    if np1.ownerReferences.length == 0 then
      ({ np1 with ownerReferences := [newControllerRef acl] }, true)
    else (np1, false)
  let s3 :=
    if (s2.1.policyTypes.length == 1 && s2.1.policyTypes.headD .ingress != .egress)
        || s2.1.policyTypes.length != 1 then
      ({ s2.1 with policyTypes := [.egress] }, true)
    else s2
  match podSelectorForSource acl.spec.source with
  | none =>
      let u := setUnreadyStatus st acl "No podSelector generated by spec.source"
      ⟨u.1, u.2, emptyResult, none⟩
  | some podSelector =>
      let s4 :=
        if s3.1.podSelector.matchLabels ≠ podSelector then
          ({ s3.1 with podSelector := ⟨podSelector⟩ }, true)
        else s3
      match computeEgressRules c acl.spec.destinations with
      | .error de =>
          let u := setUnreadyStatus st acl
            ("could not generate egress rule for destination " ++
              destinationJSON de.1 ++ ", err: " ++ de.2)
          ⟨u.1, u.2, emptyResult, none⟩
      | .ok rules0 =>
          match fillPodSelectorByCIDR c.getByIP rules0 with
          | .error e =>
              let u := setUnreadyStatus st acl
                ("could not generate egress rule based on kubernetes selector, err: " ++ e)
              ⟨u.1, u.2, emptyResult, none⟩
          | .ok newEgressRules =>
              if newEgressRules.length == 0 then
                let u := setUnreadyStatus st acl "No egress generated by spec.destinations"
                ⟨u.1, u.2, emptyResult, none⟩
              else
                let s5 :=
                  if s4.1.egress ≠ newEgressRules then
                    ({ s4.1 with egress := newEgressRules }, true)
                  else s4
                if s5.1.creationTimestampIsZero then
                  let newStatus : ACLStatus := ⟨true, "", s5.1.name⟩
                  ⟨putACLStatus (createNP st s5.1) acl.ns acl.name newStatus,
                   [.npCreate s5.1, .aclStatusUpdate newStatus],
                   ⟨true, requeueAfter⟩, none⟩
                else if s5.2 then
                  let newStatus : ACLStatus := ⟨true, "", s5.1.name⟩
                  ⟨putACLStatus (updateNP st s5.1) acl.ns acl.name newStatus,
                   [.npUpdate s5.1, .aclStatusUpdate newStatus],
                   ⟨true, requeueAfter⟩, none⟩
                else
                  ⟨st, [], ⟨true, requeueAfter⟩, none⟩

/-- The conditions under which one reconcile pass runs to completion instead
of aborting to Unready: a pod selector is derived from the source, every
destination resolves, the service cache enrichment succeeds, and the final
rule list is nonempty.  These are exactly the four abort tests of
ACLReconcile, in order. -/
def passCompleted (c : ACLCollab) (st : ClusterState)
    (reqNs reqName : String) : Prop :=
  (∃ sel, podSelectorForSource (fetchedACL st reqNs reqName).spec.source =
    some sel) ∧
  ∃ rules0 rules,
    computeEgressRules c (fetchedACL st reqNs reqName).spec.destinations =
      .ok rules0 ∧
    fillPodSelectorByCIDR c.getByIP rules0 = .ok rules ∧ rules ≠ []

/-! ## Concrete fixtures used by witnesses and counterexamples -/

/-- A destination naming only an external IP. -/
def destExternalIP (ip : String) : ACLSpecDestination :=
  ⟨"", "", none, some ⟨ip, []⟩, none⟩

/-- A destination naming only a tsuru app. -/
def destTsuruApp (app : String) : ACLSpecDestination :=
  ⟨app, "", none, none, none⟩

/-- A wildcard external DNS destination. -/
def destWildcardDNS : ACLSpecDestination :=
  ⟨"", "", some ⟨".example.com", []⟩, none, none⟩

/-- Collaborator oracle resolving external IP destinations and failing on
every other kind. -/
def collabExternalIP : ACLCollab :=
  ⟨fun d =>
    match d.externalIP with
    | some eip => .ok (egressRulesForExternalIP eip)
    | none => .error "unresolvable destination",
   fun _ => .ok none⟩

/-- Collaborator oracle failing on every destination. -/
def collabFailing : ACLCollab :=
  ⟨fun _ => .error "boom", fun _ => .ok none⟩

/-- Collaborator oracle dispatching external DNS destinations through the
embedded egressRulesForExternalDNS over an empty entry store. -/
def collabDNS : ACLCollab :=
  ⟨fun d =>
    match d.externalDNS with
    | some dns => (egressRulesForExternalDNS (fun es _ => es) [] dns).2
    | none => .error "unresolvable destination",
   fun _ => .ok none⟩

/-- An ACL whose source is the app web and whose single destination is the
external IP 10.0.0.5. -/
def aclWeb : ACL :=
  ⟨"ns1", "myacl", ⟨⟨"web", none⟩, [destExternalIP "10.0.0.5"]⟩, ⟨false, "", ""⟩⟩

/-- A store holding only aclWeb. -/
def stWeb : ClusterState := ⟨[aclWeb], []⟩

/-- An ACL with one resolvable and one unresolvable destination. -/
def aclTwoDest : ACL :=
  ⟨"ns1", "twodest",
   ⟨⟨"web", none⟩, [destExternalIP "10.0.0.5", destTsuruApp "db"]⟩,
   ⟨false, "", ""⟩⟩

/-- A store holding only aclTwoDest. -/
def stTwoDest : ClusterState := ⟨[aclTwoDest], []⟩

/-- An ACL whose single destination is a wildcard hostname. -/
def aclWildcard : ACL :=
  ⟨"ns1", "wild", ⟨⟨"web", none⟩, [destWildcardDNS]⟩, ⟨false, "", ""⟩⟩

/-- A store holding only aclWildcard. -/
def stWildcard : ClusterState := ⟨[aclWildcard], []⟩

/-- The store produced by a first, successful reconcile of stWeb. -/
def stWebConverged : ClusterState :=
  (ACLReconcile collabExternalIP stWeb "ns1" "myacl").state

/-- The NetworkPolicy stored after the first reconcile of stWeb. -/
def npWebConverged : NetworkPolicy :=
  ⟨"ns1", "acl-myacl", [⟨"ACL", "myacl", true⟩], [.egress],
   ⟨[("tsuru.io/app-name", "web")]⟩, egressRulesForExternalIP ⟨"10.0.0.5", []⟩,
   false⟩

/-- The service owning IP 10.0.0.9 in the enrichment scenario. -/
def svcDataDB : Service := ⟨"data", [("role", "db")]⟩

/-- A service cache that knows only 10.0.0.9. -/
def cacheB : String → Except String (Option Service) :=
  fun ip => if ip == "10.0.0.9" then .ok (some svcDataDB) else .ok none

/-- The single-host literal peer for 10.0.0.9. -/
def literalPeerB : NetworkPolicyPeer := ⟨none, none, some ⟨"10.0.0.9/32"⟩⟩

/-- An egress rule list holding only the literal peer. -/
def rulesB : List NetworkPolicyEgressRule := [⟨[literalPeerB], []⟩]

/-- The same rule list after enrichment. -/
def rulesBFilled : List NetworkPolicyEgressRule :=
  [⟨[literalPeerB, enrichedPeer svcDataDB], []⟩]

/-- The app info reported for app1 by the happy resolver environment. -/
def infoApp1 : TsuruAppInfo :=
  ⟨[⟨"http://r1.example.com", []⟩, ⟨"", ["h2", "h3"]⟩]⟩

/-- A resolver environment where the tsuru API knows app1, two hostnames
resolve (overlapping) and one fails. -/
def envHappy : AppResolverEnv :=
  ⟨fun n => if n == "app1" then .ok infoApp1 else .error "app not found",
   fun h =>
     if h == "r1.example.com" then .ok ["10.0.0.2", "10.0.0.1"]
     else if h == "h2" then .ok ["10.0.0.1"]
     else .error "lookup fail",
   fun u => if u == "http://r1.example.com" then "r1.example.com" else u,
   "2026-01-01T00:00:00Z"⟩

/-- A record store holding one unready record for app1. -/
def recsApp1 : List TsuruAppAdress := [⟨"app1", "app1", ⟨false, [], ""⟩⟩]

/-- The app info reported by the environment whose lookups all fail. -/
def infoApp1Bare : TsuruAppInfo := ⟨[⟨"r1", []⟩]⟩

/-- A resolver environment where the tsuru API succeeds but every hostname
lookup fails. -/
def envAllLookupsFail : AppResolverEnv :=
  ⟨fun n => if n == "app1" then .ok infoApp1Bare else .error "app not found",
   fun _ => .error "lookup fail",
   fun u => u,
   "2026-01-01T00:00:00Z"⟩

/-! ## Supporting lemmas -/

theorem hexOfBytes_length (bs : List Nat) : (hexOfBytes bs).length = 2 * bs.length := by
  induction bs with
  | nil => rfl
  | cons b bs ih => simp [hexOfBytes, ih]; omega

theorem sha256Bytes_length (bytes : List Nat) : (sha256Bytes bytes).length = 32 := by
  simp [sha256Bytes, be32]

theorem sha256String_data_length (s : String) : (sha256String s).data.length = 64 := by
  simp [sha256String, hexOfBytes_length, sha256Bytes_length]

theorem sha256String_length (s : String) : (sha256String s).length = 64 :=
  sha256String_data_length s

theorem enrichmentsFor_cons_sub (g : String → Except String (Option Service))
    (q : NetworkPolicyPeer) (rest : List NetworkPolicyPeer)
    (extra : List NetworkPolicyPeer)
    (hok : enrichmentsFor g (q :: rest) = .ok extra) :
    ∃ tl, enrichmentsFor g rest = .ok tl ∧ ∀ x ∈ tl, x ∈ extra := by
  rcases hb : q.ipBlock with _ | b
  · simp only [enrichmentsFor, hb] at hok
    exact ⟨extra, hok, fun x hx => hx⟩
  · by_cases hsuf : (hasSuffix b.cidr "/32" || hasSuffix b.cidr "/128") = true
    · simp only [enrichmentsFor, hb, hsuf, if_true] at hok
      rcases hg : g (beforeSlash b.cidr) with e | svc?
      · rw [hg] at hok; exact absurd hok (by simp)
      · rw [hg] at hok
        rcases svc? with _ | svc
        · exact ⟨extra, hok, fun x hx => hx⟩
        · rcases hrest : enrichmentsFor g rest with e | tl
          · rw [hrest] at hok; exact absurd hok (by simp)
          · rw [hrest] at hok
            refine ⟨tl, rfl, fun x hx => ?_⟩
            have hcons : enrichedPeer svc :: tl = extra := by
              simpa using hok
            rw [← hcons]
            exact List.mem_cons_of_mem _ hx
    · simp only [enrichmentsFor, hb, if_neg hsuf] at hok
      exact ⟨extra, hok, fun x hx => hx⟩

theorem enrichmentsFor_mem_of_match (g : String → Except String (Option Service))
    (peers : List NetworkPolicyPeer) (extra : List NetworkPolicyPeer)
    (hok : enrichmentsFor g peers = .ok extra) :
    ∀ p ∈ peers, ∀ b, p.ipBlock = some b →
      (hasSuffix b.cidr "/32" || hasSuffix b.cidr "/128") = true →
      ∀ svc, g (beforeSlash b.cidr) = .ok (some svc) →
      enrichedPeer svc ∈ extra := by
  induction peers generalizing extra with
  | nil => intro p hp; cases hp
  | cons q rest ih =>
      intro p hp b hb hsuf svc hsvc
      rcases List.mem_cons.mp hp with hpq | hprest
      · subst hpq
        simp only [enrichmentsFor, hb, hsuf, if_true, hsvc] at hok
        rcases hrest : enrichmentsFor g rest with e | tl
        · rw [hrest] at hok; exact absurd hok (by simp)
        · rw [hrest] at hok
          have : enrichedPeer svc :: tl = extra := by simpa using hok
          rw [← this]
          exact List.mem_cons_self _ _
      · obtain ⟨tl, htl, hsub⟩ := enrichmentsFor_cons_sub g q rest extra hok
        exact hsub _ (ih tl htl p hprest b hb hsuf svc hsvc)

theorem fillPodSelectorByCIDR_ok_shape (g : String → Except String (Option Service))
    (rules rules' : List NetworkPolicyEgressRule)
    (h : fillPodSelectorByCIDR g rules = .ok rules') :
    rules'.length = rules.length ∧
    ∀ i (hi : i < rules.length) (hi' : i < rules'.length),
      ∃ extra, enrichmentsFor g (rules.get ⟨i, hi⟩).toPeers = .ok extra ∧
        rules'.get ⟨i, hi'⟩ =
          { rules.get ⟨i, hi⟩ with
            toPeers := (rules.get ⟨i, hi⟩).toPeers ++ extra } := by
  induction rules generalizing rules' with
  | nil =>
      simp only [fillPodSelectorByCIDR] at h
      replace h : ([] : List NetworkPolicyEgressRule) = rules' := by simpa using h
      subst h
      exact ⟨rfl, fun i hi => absurd hi (by simp)⟩
  | cons r rest ih =>
      simp only [fillPodSelectorByCIDR] at h
      rcases he : enrichmentsFor g r.toPeers with e | extra
      · rw [he] at h; exact absurd h (by simp)
      · rw [he] at h
        rcases hrest : fillPodSelectorByCIDR g rest with e | tl
        · rw [hrest] at h; exact absurd h (by simp)
        · rw [hrest] at h
          have hsh : { r with toPeers := r.toPeers ++ extra } :: tl = rules' := by
            simpa using h
          obtain ⟨hlen, hget⟩ := ih tl hrest
          subst hsh
          refine ⟨by simp [hlen], ?_⟩
          intro i hi hi'
          match i with
          | 0 => exact ⟨extra, he, rfl⟩
          | Nat.succ j =>
              exact hget j (by simpa using hi) (by simpa using hi')

theorem mem_insertIP (l : List String) (ip x : String) :
    x ∈ insertIP l ip ↔ x ∈ l ∨ x = ip := by
  unfold insertIP
  split
  · rename_i hin
    constructor
    · exact Or.inl
    · rintro (hx | rfl)
      · exact hx
      · exact hin
  · simp

theorem nodup_insertIP (l : List String) (ip : String) (h : l.Nodup) :
    (insertIP l ip).Nodup := by
  unfold insertIP
  split
  · exact h
  · rename_i hin
    simp [List.nodup_append, h, hin]

theorem mem_foldl_insertIP (ips : List String) (acc : List String) (x : String) :
    x ∈ ips.foldl insertIP acc ↔ x ∈ acc ∨ x ∈ ips := by
  induction ips generalizing acc with
  | nil => simp
  | cons i is ih =>
      simp only [List.foldl_cons, ih, mem_insertIP, List.mem_cons]
      tauto

theorem nodup_foldl_insertIP (ips : List String) (acc : List String)
    (h : acc.Nodup) : (ips.foldl insertIP acc).Nodup := by
  induction ips generalizing acc with
  | nil => exact h
  | cons i is ih => exact ih _ (nodup_insertIP _ _ h)

theorem mem_gather_aux (env : AppResolverEnv) (addrs : List String)
    (acc : List String) (x : String) :
    x ∈ addrs.foldl
        (fun acc addr =>
          match env.lookupIPAddr addr with
          | .error _ => acc
          | .ok ips => ips.foldl insertIP acc)
        acc ↔
      x ∈ acc ∨ ∃ addr ∈ addrs, lookupHas env addr x = true := by
  induction addrs generalizing acc with
  | nil => simp
  | cons a as ih =>
      rcases hlk : env.lookupIPAddr a with e | ips
      · simp only [List.foldl_cons, hlk, ih, List.mem_cons]
        constructor
        · rintro (hx | ⟨addr, haddr, hh⟩)
          · exact Or.inl hx
          · exact Or.inr ⟨addr, Or.inr haddr, hh⟩
        · rintro (hx | ⟨addr, (rfl | haddr), hh⟩)
          · exact Or.inl hx
          · rw [lookupHas, hlk] at hh; cases hh
          · exact Or.inr ⟨addr, haddr, hh⟩
      · simp only [List.foldl_cons, hlk, ih, mem_foldl_insertIP, List.mem_cons]
        constructor
        · rintro ((hx | hx) | ⟨addr, haddr, hh⟩)
          · exact Or.inl hx
          · exact Or.inr ⟨a, Or.inl rfl, by simp [lookupHas, hlk, hx]⟩
          · exact Or.inr ⟨addr, Or.inr haddr, hh⟩
        · rintro (hx | ⟨addr, (rfl | haddr), hh⟩)
          · exact Or.inl (Or.inl hx)
          · rw [lookupHas, hlk] at hh
            exact Or.inl (Or.inr (by simpa using hh))
          · exact Or.inr ⟨addr, haddr, hh⟩

theorem mem_gatherIPs (env : AppResolverEnv) (addrs : List String) (x : String) :
    x ∈ gatherIPs env addrs ↔ ∃ addr ∈ addrs, lookupHas env addr x = true := by
  rw [gatherIPs, mem_gather_aux]
  simp

theorem nodup_gatherIPs (env : AppResolverEnv) (addrs : List String) :
    (gatherIPs env addrs).Nodup := by
  rw [gatherIPs]
  generalize hacc : ([] : List String) = acc
  have hnd : acc.Nodup := by rw [← hacc]; exact List.nodup_nil
  clear hacc
  induction addrs generalizing acc with
  | nil => exact hnd
  | cons a as ih =>
      rcases hlk : env.lookupIPAddr a with e | ips
      · simpa only [List.foldl_cons, hlk] using ih _ hnd
      · simpa only [List.foldl_cons, hlk] using ih _ (nodup_foldl_insertIP _ _ hnd)

theorem bytesLe_total : ∀ xs ys : List Nat,
    bytesLe xs ys = true ∨ bytesLe ys xs = true
  | [], _ => Or.inl rfl
  | _ :: _, [] => Or.inr rfl
  | x :: xs, y :: ys => by
      by_cases hxy : x < y
      · left; simp [bytesLe, hxy]
      · by_cases hyx : y < x
        · right; simp [bytesLe, hyx]
        · rcases bytesLe_total xs ys with h | h
          · left; simp [bytesLe, hxy, hyx, h]
          · right; simp [bytesLe, hxy, hyx, h]

theorem bytesLe_trans : ∀ xs ys zs : List Nat,
    bytesLe xs ys = true → bytesLe ys zs = true → bytesLe xs zs = true
  | [], _, _, _, _ => rfl
  | _ :: _, [], _, h1, _ => by simp [bytesLe] at h1
  | _ :: _, _ :: _, [], _, h2 => by simp [bytesLe] at h2
  | x :: xs, y :: ys, z :: zs, h1, h2 => by
      simp only [bytesLe] at h1 h2 ⊢
      have h1' : x < y ∨ (x = y ∧ bytesLe xs ys = true) := by
        by_cases hxy : x < y
        · exact Or.inl hxy
        · by_cases hyx : y < x
          · rw [if_neg hxy, if_pos hyx] at h1; cases h1
          · exact Or.inr ⟨by omega, by rwa [if_neg hxy, if_neg hyx] at h1⟩
      have h2' : y < z ∨ (y = z ∧ bytesLe ys zs = true) := by
        by_cases hyz : y < z
        · exact Or.inl hyz
        · by_cases hzy : z < y
          · rw [if_neg hyz, if_pos hzy] at h2; cases h2
          · exact Or.inr ⟨by omega, by rwa [if_neg hyz, if_neg hzy] at h2⟩
      rcases h1' with hxy | ⟨hxy, hrec1⟩
      · rcases h2' with hyz | ⟨hyz, _⟩
        · rw [if_pos (show x < z by omega)]
        · rw [if_pos (show x < z by omega)]
      · rcases h2' with hyz | ⟨hyz, hrec2⟩
        · rw [if_pos (show x < z by omega)]
        · rw [if_neg (show ¬ x < z by omega), if_neg (show ¬ z < x by omega)]
          exact bytesLe_trans xs ys zs hrec1 hrec2

theorem strLe_total (a b : String) : strLe a b = true ∨ strLe b a = true :=
  bytesLe_total _ _

theorem strLe_trans {a b c : String} (h1 : strLe a b = true)
    (h2 : strLe b c = true) : strLe a c = true :=
  bytesLe_trans _ _ _ h1 h2

theorem sortStrings_perm (l : List String) : List.Perm (sortStrings l) l :=
  List.perm_insertionSort _ l

theorem sortStrings_sorted (l : List String) :
    (sortStrings l).Sorted (fun a b => strLe a b = true) :=
  @List.sorted_insertionSort String _ _ ⟨strLe_total⟩
    ⟨fun _ _ _ => strLe_trans⟩ l

theorem resolvedIPsFor_sorted (env : AppResolverEnv) (info : TsuruAppInfo) :
    (resolvedIPsFor env info).Sorted (fun a b => strLe a b = true) :=
  sortStrings_sorted _

theorem resolvedIPsFor_nodup (env : AppResolverEnv) (info : TsuruAppInfo) :
    (resolvedIPsFor env info).Nodup :=
  ((sortStrings_perm _).nodup_iff).mpr (nodup_gatherIPs _ _)

theorem mem_resolvedIPsFor (env : AppResolverEnv) (info : TsuruAppInfo)
    (ip : String) :
    ip ∈ resolvedIPsFor env info ↔
      ∃ addr ∈ routerAddrs env info.routers, lookupHas env addr ip = true := by
  rw [resolvedIPsFor, (sortStrings_perm _).mem_iff, mem_gatherIPs]

theorem find_updateAppAdressStatus (records : List TsuruAppAdress) (n : String)
    (s : TsuruAppAdressStatus) :
    (updateAppAdressStatus records n s).find? (fun r => r.name == n) =
      (records.find? (fun r => r.name == n)).map (fun r => { r with status := s }) := by
  induction records with
  | nil => rfl
  | cons r rest ih =>
      cases hr : (r.name == n) with
      | true =>
          show List.find? (fun x => x.name == n)
              ((if r.name == n then { r with status := s } else r) ::
                updateAppAdressStatus rest n s) = _
          rw [if_pos hr]
          simp only [List.find?]
          rw [show (({ r with status := s } : TsuruAppAdress).name == n) = true from hr]
          rfl
      | false =>
          show List.find? (fun x => x.name == n)
              ((if r.name == n then { r with status := s } else r) ::
                updateAppAdressStatus rest n s) = _
          rw [if_neg (by simp [hr])]
          simp only [List.find?]
          rw [hr]
          exact ih

theorem mem_updateAppAdressStatus (records : List TsuruAppAdress) (n : String)
    (s : TsuruAppAdressStatus) (r' : TsuruAppAdress)
    (h : r' ∈ updateAppAdressStatus records n s) :
    r' ∈ records ∨ r'.status = s := by
  rw [updateAppAdressStatus] at h
  obtain ⟨r, hr, heq⟩ := List.mem_map.mp h
  by_cases hn : (r.name == n) = true
  · rw [if_pos hn] at heq
    exact Or.inr (by rw [← heq])
  · rw [if_neg hn] at heq
    exact Or.inl (heq ▸ hr)

theorem getACL_meta (st : ClusterState) (ns n : String) (a : ACL)
    (h : getACL st ns n = some a) : a.ns = ns ∧ a.name = n := by
  have hp := List.find?_some h
  simp only [Bool.and_eq_true, beq_iff_eq] at hp
  exact hp

theorem getNP_meta (st : ClusterState) (ns n : String) (np : NetworkPolicy)
    (h : getNP st ns n = some np) : np.ns = ns ∧ np.name = n := by
  have hp := List.find?_some h
  simp only [Bool.and_eq_true, beq_iff_eq] at hp
  exact hp

theorem fetchedACL_found (st : ClusterState) (reqNs reqName : String)
    (sel : List (String × String))
    (hsel : podSelectorForSource (fetchedACL st reqNs reqName).spec.source =
      some sel) :
    getACL st reqNs reqName = some (fetchedACL st reqNs reqName) := by
  unfold fetchedACL at hsel ⊢
  cases hg : getACL st reqNs reqName with
  | none =>
      rw [hg] at hsel
      exact Option.noConfusion
        (show (none : Option (List (String × String))) = some sel from hsel)
  | some a => simp [hg]

theorem fetchedACL_ns (st : ClusterState) (reqNs reqName : String)
    (sel : List (String × String))
    (hsel : podSelectorForSource (fetchedACL st reqNs reqName).spec.source =
      some sel) :
    (fetchedACL st reqNs reqName).ns = reqNs :=
  (getACL_meta st reqNs reqName _ (fetchedACL_found st reqNs reqName sel hsel)).1

theorem computeEgressRules_first_error (c : ACLCollab)
    (pre : List ACLSpecDestination) (d : ACLSpecDestination)
    (rest : List ACLSpecDestination) (e : String)
    (hpre : ∀ d' ∈ pre, ∃ rs, c.egressForDestination d' = .ok rs)
    (hd : c.egressForDestination d = .error e) :
    computeEgressRules c (pre ++ d :: rest) = .error (d, e) := by
  induction pre with
  | nil => simp only [List.nil_append, computeEgressRules, hd]
  | cons q qs ih =>
      obtain ⟨rs, hrs⟩ := hpre q (List.mem_cons_self q qs)
      have ih' := ih (fun d' hd' => hpre d' (List.mem_cons_of_mem q hd'))
      simp only [List.cons_append, computeEgressRules, hrs, List.append_eq, ih']

/-! ## Claim theorems -/

/-- Claim C7: for a key that is not already a legal resource name, when its
sanitized form exceeds 253 characters the produced name has length exactly
253 and equals the sanitized prefix truncated to 253 - 11 = 242 characters
followed by a dash and the ten-hex-character digest; and whenever the
sanitized prefix plus dash plus suffix fits within 253, the produced name is
exactly that prefix, dash and suffix. -/
theorem c7_namer_length_contract (name : String)
    (h : isDNS1123Subdomain name = false) :
    (253 < (dropLeadingNonAlnum (sanitizeChars name)).length →
      (validResourceName name).length = 253 ∧
      (validResourceName name).data =
        (dropLeadingNonAlnum (sanitizeChars name)).take 242 ++
          '-' :: (sha256String name).data.take 10) ∧
    ((dropLeadingNonAlnum (sanitizeChars name)).length + 11 ≤ 253 →
      (validResourceName name).data =
        dropLeadingNonAlnum (sanitizeChars name) ++
          '-' :: (sha256String name).data.take 10) := by
  have hdig : ((sha256String name).data.take 10).length = 10 := by
    simp [List.length_take, sha256String_data_length, sha256String_length]
  constructor
  · intro hlen
    have hge : ¬ (dropLeadingNonAlnum (sanitizeChars name)).length < 253 - 11 := by
      omega
    refine ⟨?_, ?_⟩
    · simp only [validResourceName, h, Bool.false_eq_true, if_false, hge]
      simp only [String.length, List.length_append, List.length_take,
        List.length_cons, hdig]
      omega
    · simp only [validResourceName, h, Bool.false_eq_true, if_false, hge]
  · intro hfit
    by_cases hlt : (dropLeadingNonAlnum (sanitizeChars name)).length < 253 - 11
    · simp only [validResourceName, h, Bool.false_eq_true, if_false, hlt,
        if_true]
    · have heq : (dropLeadingNonAlnum (sanitizeChars name)).length ≤ 242 := by
        omega
      simp only [validResourceName, h, Bool.false_eq_true, if_false, hlt,
        if_false]
      simp [List.take_of_length_le heq]

/-- Claim C7 witness: a 260-character key is not a legal resource name, its
sanitized form exceeds 253 characters, and the produced name has length
exactly 253. -/
theorem c7_namer_length_contract_witness :
    isDNS1123Subdomain ⟨List.replicate 260 'a'⟩ = false ∧
    253 < (dropLeadingNonAlnum (sanitizeChars ⟨List.replicate 260 'a'⟩)).length ∧
    (validResourceName ⟨List.replicate 260 'a'⟩).length = 253 := by
  refine ⟨by decide, by decide, ?_⟩
  exact ((c7_namer_length_contract ⟨List.replicate 260 'a'⟩ (by decide)).1
    (by decide)).1

/-- Claim C6: a wildcard external-hostname destination (nonempty hostname
beginning with a dot) contributes zero egress rules and no error, and leaves
the DNS entry store untouched: no record is created or resolved for it. -/
theorem c6_wildcard_contributes_nothing (subRec : DNSSubReconcile)
    (entries : List ACLDNSEntry) (dns : ACLSpecExternalDNS)
    (h1 : dns.name ≠ "") (h2 : dns.name.front = '.') :
    egressRulesForExternalDNS subRec entries dns = (entries, .ok []) := by
  have hw : isWildCard dns.name = true := by
    simp [isWildCard, h2, bne_iff_ne, h1]
  simp [egressRulesForExternalDNS, hw]

/-- Claim C6 witness: the wildcard hostname .example.com satisfies the
hypotheses and contributes nothing. -/
theorem c6_wildcard_contributes_nothing_witness :
    egressRulesForExternalDNS (fun es _ => es) []
      ⟨".example.com", []⟩ = ([], .ok []) :=
  c6_wildcard_contributes_nothing (fun es _ => es) [] ⟨".example.com", []⟩
    (by decide) (by decide)

/-- Claim C5: when the Address Cache enrichment succeeds, every rule keeps
its original peer list as a prefix (no peer is removed or replaced), and for
every single-host IP-literal peer (/32 or /128) whose address the cache maps
to an owning service, the resulting rule contains both the original literal
peer and the appended peer carrying the owner pod selector and namespace
label match. -/
theorem c5_enrichment_additive (g : String → Except String (Option Service))
    (rules rules' : List NetworkPolicyEgressRule)
    (h : fillPodSelectorByCIDR g rules = .ok rules')
    (i : Nat) (hi : i < rules.length) (hi' : i < rules'.length) :
    (∃ extra, (rules'.get ⟨i, hi'⟩).toPeers = (rules.get ⟨i, hi⟩).toPeers ++ extra) ∧
    (∀ p ∈ (rules.get ⟨i, hi⟩).toPeers, p ∈ (rules'.get ⟨i, hi'⟩).toPeers) ∧
    (∀ p ∈ (rules.get ⟨i, hi⟩).toPeers, ∀ b, p.ipBlock = some b →
      (hasSuffix b.cidr "/32" || hasSuffix b.cidr "/128") = true →
      ∀ svc, g (beforeSlash b.cidr) = .ok (some svc) →
        enrichedPeer svc ∈ (rules'.get ⟨i, hi'⟩).toPeers) := by
  obtain ⟨hlen, hget⟩ := fillPodSelectorByCIDR_ok_shape g rules rules' h
  obtain ⟨extra, hex, hrule⟩ := hget i hi hi'
  refine ⟨⟨extra, by rw [hrule]⟩, ?_, ?_⟩
  · intro p hp
    rw [hrule]
    exact List.mem_append_left _ hp
  · intro p hp b hb hsuf svc hsvc
    rw [hrule]
    exact List.mem_append_right _
      (enrichmentsFor_mem_of_match g _ extra hex p hp b hb hsuf svc hsvc)

/-- Claim C5 witness: enriching a rule whose only peer is the literal
10.0.0.9/32, with a cache owning that address in namespace data with selector
role=db, keeps the literal peer and adds the enriched peer. -/
theorem c5_enrichment_additive_witness :
    fillPodSelectorByCIDR cacheB rulesB = .ok rulesBFilled ∧
    literalPeerB ∈ (rulesBFilled.get ⟨0, by decide⟩).toPeers ∧
    enrichedPeer svcDataDB ∈ (rulesBFilled.get ⟨0, by decide⟩).toPeers := by
  have h : fillPodSelectorByCIDR cacheB rulesB = .ok rulesBFilled := by rfl
  have happ := c5_enrichment_additive cacheB rulesB rulesBFilled h 0
    (by decide) (by decide)
  refine ⟨h, ?_, ?_⟩
  · exact happ.2.1 literalPeerB (by simp [rulesB])
  · exact happ.2.2 literalPeerB (by simp [rulesB]) ⟨"10.0.0.9/32"⟩ rfl
      (by decide) svcDataDB (by rfl)

/-- Claim C8: on a run of the platform-application resolver that finds its
record and reaches the platform API successfully, the IP list it computes is
the deduplicated (no duplicates), lexicographically sorted aggregation of all
addresses resolved from the application's routers; a status write carrying
exactly that list is issued precisely when the record is not yet ready or the
list differs from the stored one, and otherwise the record store is left
unchanged with no write. -/
theorem c8_resolver_aggregation_and_write_discipline (env : AppResolverEnv)
    (records : List TsuruAppAdress) (reqName : String) (a : TsuruAppAdress)
    (info : TsuruAppInfo)
    (hfind : records.find? (fun r => r.name == reqName) = some a)
    (hinfo : env.appInfo a.specName = .ok info) :
    (resolvedIPsFor env info).Sorted (fun a b => strLe a b = true) ∧
    (resolvedIPsFor env info).Nodup ∧
    (∀ ip, ip ∈ resolvedIPsFor env info ↔
      ∃ addr ∈ routerAddrs env info.routers, lookupHas env addr ip = true) ∧
    ((a.status.ready = false ∨ resolvedIPsFor env info ≠ a.status.routerIPs) →
      (TsuruAppAdressReconcile env records reqName).statusWrites =
        [⟨true, resolvedIPsFor env info, env.now⟩] ∧
      (TsuruAppAdressReconcile env records reqName).records =
        updateAppAdressStatus records reqName ⟨true, resolvedIPsFor env info, env.now⟩) ∧
    (a.status.ready = true ∧ resolvedIPsFor env info = a.status.routerIPs →
      (TsuruAppAdressReconcile env records reqName).statusWrites = [] ∧
      (TsuruAppAdressReconcile env records reqName).records = records) := by
  refine ⟨resolvedIPsFor_sorted env info, resolvedIPsFor_nodup env info,
    mem_resolvedIPsFor env info, ?_, ?_⟩
  · intro hcond
    have hbool : (!a.status.ready ||
        decide (resolvedIPsFor env info ≠ a.status.routerIPs)) = true := by
      rcases hcond with hr | hne
      · simp [hr]
      · simp [hne]
    simp only [TsuruAppAdressReconcile, hfind, hinfo, hbool]
    exact ⟨rfl, rfl⟩
  · rintro ⟨hready, hsame⟩
    have hbool : (!a.status.ready ||
        decide (resolvedIPsFor env info ≠ a.status.routerIPs)) = false := by
      simp [hready, hsame]
    simp only [TsuruAppAdressReconcile, hfind, hinfo, hbool]
    exact ⟨rfl, rfl⟩

/-- Claim C8 witness: in the happy environment, the run on app1 finds the
record, reaches the API, and writes the sorted deduplicated list once. -/
theorem c8_resolver_aggregation_and_write_discipline_witness :
    (TsuruAppAdressReconcile envHappy recsApp1 "app1").statusWrites =
      [⟨true, resolvedIPsFor envHappy infoApp1, envHappy.now⟩] ∧
    resolvedIPsFor envHappy infoApp1 = ["10.0.0.1", "10.0.0.2"] := by
  have h := c8_resolver_aggregation_and_write_discipline envHappy recsApp1
    "app1" ⟨"app1", "app1", ⟨false, [], ""⟩⟩ infoApp1 (by rfl) (by rfl)
  exact ⟨(h.2.2.2.1 (Or.inl rfl)).1, by rfl⟩

/-- Claim C10: once a run of the platform-application resolver finds its
record, then if the platform API call succeeds the stored record ends the run
with its ready flag true (whatever the lookups did), if the record was
already ready it stays ready, and every record in the resulting store is
either untouched or marked ready — the resolver never flips ready back to
false. -/
theorem c10_ready_flag_monotone (env : AppResolverEnv)
    (records : List TsuruAppAdress) (reqName : String) (a : TsuruAppAdress)
    (hfind : records.find? (fun r => r.name == reqName) = some a) :
    ((∃ info, env.appInfo a.specName = .ok info) →
      ∃ a', (TsuruAppAdressReconcile env records reqName).records.find?
          (fun r => r.name == reqName) = some a' ∧ a'.status.ready = true) ∧
    (a.status.ready = true →
      ∃ a', (TsuruAppAdressReconcile env records reqName).records.find?
          (fun r => r.name == reqName) = some a' ∧ a'.status.ready = true) ∧
    (∀ r' ∈ (TsuruAppAdressReconcile env records reqName).records,
      r' ∈ records ∨ r'.status.ready = true) := by
  rcases hinfo : env.appInfo a.specName with e | info
  · have hout : TsuruAppAdressReconcile env records reqName =
        ⟨records, [], some e⟩ := by
      simp only [TsuruAppAdressReconcile, hfind, hinfo]
    refine ⟨?_, ?_, ?_⟩
    · rintro ⟨info, hok⟩
      cases hok
    · intro hready
      exact ⟨a, by rw [hout]; exact ⟨hfind, hready⟩⟩
    · intro r' hr'
      rw [hout] at hr'
      exact Or.inl hr'
  · cases hbool : (!a.status.ready ||
        decide (resolvedIPsFor env info ≠ a.status.routerIPs)) with
    | true =>
        have hout : TsuruAppAdressReconcile env records reqName =
            ⟨updateAppAdressStatus records reqName
              ⟨true, resolvedIPsFor env info, env.now⟩,
             [⟨true, resolvedIPsFor env info, env.now⟩], none⟩ := by
          simp only [TsuruAppAdressReconcile, hfind, hinfo, hbool]
          rfl
        have hfind' : (TsuruAppAdressReconcile env records reqName).records.find?
            (fun r => r.name == reqName) =
            some { a with status := ⟨true, resolvedIPsFor env info, env.now⟩ } := by
          rw [hout]
          simp only [find_updateAppAdressStatus, hfind]
          rfl
        refine ⟨fun _ => ⟨_, hfind', rfl⟩, fun _ => ⟨_, hfind', rfl⟩, ?_⟩
        intro r' hr'
        rw [hout] at hr'
        rcases mem_updateAppAdressStatus records reqName _ r' hr' with h | h
        · exact Or.inl h
        · exact Or.inr (by rw [h])
    | false =>
        have hready : a.status.ready = true := by
          rcases hb : a.status.ready with _ | _
          · rw [hb] at hbool; simp at hbool
          · rfl
        have hout : TsuruAppAdressReconcile env records reqName =
            ⟨records, [], none⟩ := by
          simp only [TsuruAppAdressReconcile, hfind, hinfo, hbool]
          rfl
        refine ⟨fun _ => ⟨a, ?_, hready⟩, fun _ => ⟨a, ?_, hready⟩, ?_⟩
        · rw [hout]; exact hfind
        · rw [hout]; exact hfind
        · intro r' hr'
          rw [hout] at hr'
          exact Or.inl hr'

/-- Claim C10 witness: with the API succeeding and every hostname lookup
failing, the unready app1 record ends the run ready, with an empty IP list. -/
theorem c10_ready_flag_monotone_witness :
    ∃ a', (TsuruAppAdressReconcile envAllLookupsFail recsApp1 "app1").records.find?
        (fun r => r.name == "app1") = some a' ∧ a'.status.ready = true :=
  (c10_ready_flag_monotone envAllLookupsFail recsApp1 "app1"
    ⟨"app1", "app1", ⟨false, [], ""⟩⟩ (by rfl)).1 ⟨infoApp1Bare, by rfl⟩

/-- Claim C3: when the pass reaches the destination loop (a pod selector was
derived) and destination d fails to resolve while every destination before it
succeeded, the pass aborts: the only write is one status update putting the
spec into Unready with a reason embedding the failing destination and the
underlying error, the result is the empty one, and the stored NetworkPolicy
objects are untouched. -/
theorem c3_first_failing_destination_aborts (c : ACLCollab) (st : ClusterState)
    (reqNs reqName : String) (sel : List (String × String))
    (pre rest : List ACLSpecDestination) (d : ACLSpecDestination) (e : String)
    (hsel : podSelectorForSource (fetchedACL st reqNs reqName).spec.source =
      some sel)
    (hdest : (fetchedACL st reqNs reqName).spec.destinations = pre ++ d :: rest)
    (hpre : ∀ d' ∈ pre, ∃ rs, c.egressForDestination d' = .ok rs)
    (hd : c.egressForDestination d = .error e) :
    (ACLReconcile c st reqNs reqName).writes =
      [.aclStatusUpdate (unreadyStatusOf (fetchedACL st reqNs reqName).status
        ("could not generate egress rule for destination " ++
          destinationJSON d ++ ", err: " ++ e))] ∧
    (ACLReconcile c st reqNs reqName).result = emptyResult ∧
    (ACLReconcile c st reqNs reqName).state.networkPolicies =
      st.networkPolicies := by
  have hcr := computeEgressRules_first_error c pre d rest e hpre hd
  rw [← hdest] at hcr
  refine ⟨?_, ?_, ?_⟩ <;>
    simp only [ACLReconcile, hsel, hcr, setUnreadyStatus, putACLStatus,
      unreadyStatusOf, emptyResult]

/-- Claim C3 witness: with the external-IP-only collaborator, the two
destination ACL resolves its first destination and fails on its second, and
the pass aborts with the embedded reason and no NetworkPolicy write. -/
theorem c3_first_failing_destination_aborts_witness :
    (ACLReconcile collabExternalIP stTwoDest "ns1" "twodest").writes =
      [.aclStatusUpdate (unreadyStatusOf (fetchedACL stTwoDest "ns1" "twodest").status
        ("could not generate egress rule for destination " ++
          destinationJSON (destTsuruApp "db") ++ ", err: " ++
          "unresolvable destination"))] ∧
    (ACLReconcile collabExternalIP stTwoDest "ns1" "twodest").result =
      emptyResult ∧
    (ACLReconcile collabExternalIP stTwoDest "ns1" "twodest").state.networkPolicies =
      stTwoDest.networkPolicies :=
  c3_first_failing_destination_aborts collabExternalIP stTwoDest "ns1" "twodest"
    [("tsuru.io/app-name", "web")] [destExternalIP "10.0.0.5"] []
    (destTsuruApp "db") "unresolvable destination" (by rfl) (by rfl)
    (by
      intro d' hd'
      simp only [List.mem_singleton] at hd'
      subst hd'
      exact ⟨egressRulesForExternalIP ⟨"10.0.0.5", []⟩, rfl⟩)
    (by rfl)

/-- Claim C2, corrected: one reconcile pass returns the result scheduling the
next reconciliation after the fixed 10-minute interval exactly when it runs
to completion (pod selector derived, every destination resolved, cache
enrichment succeeded, nonempty final rule list), and returns the empty
result, with no scheduled requeue, exactly when it does not — that is, on
every transition to Unready. -/
theorem c2_amended_requeue_iff_completion (c : ACLCollab) (st : ClusterState)
    (reqNs reqName : String) :
    ((ACLReconcile c st reqNs reqName).result = ⟨true, requeueAfter⟩ ↔
      passCompleted c st reqNs reqName) ∧
    ((ACLReconcile c st reqNs reqName).result = emptyResult ↔
      ¬ passCompleted c st reqNs reqName) := by
  rcases hsel : podSelectorForSource (fetchedACL st reqNs reqName).spec.source
    with _ | sel
  · have hres : (ACLReconcile c st reqNs reqName).result = emptyResult := by
      simp only [ACLReconcile, hsel, setUnreadyStatus, putACLStatus,
        emptyResult]
    have hnp : ¬ passCompleted c st reqNs reqName := by
      rintro ⟨⟨sel, hsel'⟩, -⟩
      rw [hsel] at hsel'
      cases hsel'
    refine ⟨⟨fun h => ?_, fun hp => absurd hp hnp⟩,
      ⟨fun _ => hnp, fun _ => hres⟩⟩
    rw [hres] at h
    exact absurd h (by decide)
  · rcases hcr : computeEgressRules c
        (fetchedACL st reqNs reqName).spec.destinations with de | rules0
    · have hres : (ACLReconcile c st reqNs reqName).result = emptyResult := by
        simp only [ACLReconcile, hsel, hcr, setUnreadyStatus, putACLStatus,
          emptyResult]
      have hnp : ¬ passCompleted c st reqNs reqName := by
        rintro ⟨-, rules0, rules, hcr', -, -⟩
        rw [hcr] at hcr'
        cases hcr'
      refine ⟨⟨fun h => ?_, fun hp => absurd hp hnp⟩,
        ⟨fun _ => hnp, fun _ => hres⟩⟩
      rw [hres] at h
      exact absurd h (by decide)
    · rcases hfill : fillPodSelectorByCIDR c.getByIP rules0 with e | rules
      · have hres : (ACLReconcile c st reqNs reqName).result = emptyResult := by
          simp only [ACLReconcile, hsel, hcr, hfill, setUnreadyStatus,
            putACLStatus, emptyResult]
        have hnp : ¬ passCompleted c st reqNs reqName := by
          rintro ⟨-, rules0', rules, hcr', hfill', -⟩
          rw [hcr] at hcr'
          injection hcr' with h0
          subst h0
          rw [hfill] at hfill'
          cases hfill'
        refine ⟨⟨fun h => ?_, fun hp => absurd hp hnp⟩,
          ⟨fun _ => hnp, fun _ => hres⟩⟩
        rw [hres] at h
        exact absurd h (by decide)
      · by_cases hempty : rules = []
        · subst hempty
          have hres : (ACLReconcile c st reqNs reqName).result = emptyResult := by
            simp only [ACLReconcile, hsel, hcr, hfill, setUnreadyStatus,
              putACLStatus, List.length_nil, emptyResult]
            rfl
          have hnp : ¬ passCompleted c st reqNs reqName := by
            rintro ⟨-, rules0', rules', hcr', hfill', hne⟩
            rw [hcr] at hcr'
            injection hcr' with h0
            subst h0
            rw [hfill] at hfill'
            injection hfill' with h1
            exact hne h1.symm
          refine ⟨⟨fun h => ?_, fun hp => absurd hp hnp⟩,
            ⟨fun _ => hnp, fun _ => hres⟩⟩
          rw [hres] at h
          exact absurd h (by decide)
        · have hlen : (rules.length == 0) = false := by
            cases rules with
            | nil => exact absurd rfl hempty
            | cons a l => rfl
          have hres : (ACLReconcile c st reqNs reqName).result =
              ⟨true, requeueAfter⟩ := by
            simp only [ACLReconcile, hsel, hcr, hfill, hlen,
              Bool.false_eq_true, if_false, apply_ite ACLOutcome.result,
              ite_self]
          have hp : passCompleted c st reqNs reqName :=
            ⟨⟨sel, hsel⟩, rules0, rules, hcr, hfill, hempty⟩
          refine ⟨⟨fun _ => hp, fun _ => hres⟩,
            ⟨fun h => ?_, fun hn => absurd hp hn⟩⟩
          rw [hres] at h
          exact absurd h (by decide)

/-- Claim C2 witness for the amended statement: the converging external IP
pass satisfies the completion conditions and the equivalence yields its
10-minute requeue. -/
theorem c2_amended_requeue_iff_completion_witness :
    (ACLReconcile collabExternalIP stWeb "ns1" "myacl").result =
      ⟨true, requeueAfter⟩ :=
  (c2_amended_requeue_iff_completion collabExternalIP stWeb "ns1" "myacl").1.mpr
    ⟨⟨[("tsuru.io/app-name", "web")], rfl⟩,
     egressRulesForExternalIP ⟨"10.0.0.5", []⟩,
     egressRulesForExternalIP ⟨"10.0.0.5", []⟩, rfl, rfl, by decide⟩

/-- Claim C2 counterexample: a pass that transitions to Unready — here the
second destination is a tsuru app whose resolution fails, which the source
realizes when the platform API errors — does not schedule the 10-minute
requeue; it returns the empty result. -/
theorem c2_counterexample_unready_empty_result :
    (ACLReconcile collabExternalIP stTwoDest "ns1" "twodest").result =
      emptyResult ∧
    (ACLReconcile collabExternalIP stTwoDest "ns1" "twodest").result ≠
      ⟨true, requeueAfter⟩ := by
  exact ⟨by decide, by decide⟩

/-- Claim C9, corrected: when the pass reaches the empty-rules check with an
empty final rule list, it stops without creating or updating the
NetworkPolicy and issues exactly one status write putting the spec into
Unready — with the literal reason string of the source, which is
"No egress generated by spec.destinations", not "no egress generated". -/
theorem c9_amended_empty_rules_unready (c : ACLCollab) (st : ClusterState)
    (reqNs reqName : String) (sel : List (String × String))
    (rules0 : List NetworkPolicyEgressRule)
    (hsel : podSelectorForSource (fetchedACL st reqNs reqName).spec.source =
      some sel)
    (hcr : computeEgressRules c (fetchedACL st reqNs reqName).spec.destinations =
      .ok rules0)
    (hfill : fillPodSelectorByCIDR c.getByIP rules0 = .ok []) :
    (ACLReconcile c st reqNs reqName).writes =
      [.aclStatusUpdate (unreadyStatusOf (fetchedACL st reqNs reqName).status
        "No egress generated by spec.destinations")] ∧
    (ACLReconcile c st reqNs reqName).result = emptyResult ∧
    (ACLReconcile c st reqNs reqName).state.networkPolicies =
      st.networkPolicies := by
  refine ⟨?_, ?_, ?_⟩ <;>
    · simp only [ACLReconcile, hsel, hcr, hfill, setUnreadyStatus, putACLStatus,
        unreadyStatusOf, List.length_nil, emptyResult]
      all_goals rfl

/-- Claim C9 witness for the amended statement: the wildcard-only ACL yields
an empty rule list and the Unready status write with the literal source
reason. -/
theorem c9_amended_empty_rules_unready_witness :
    (ACLReconcile collabDNS stWildcard "ns1" "wild").writes =
      [.aclStatusUpdate (unreadyStatusOf (fetchedACL stWildcard "ns1" "wild").status
        "No egress generated by spec.destinations")] ∧
    (ACLReconcile collabDNS stWildcard "ns1" "wild").result = emptyResult ∧
    (ACLReconcile collabDNS stWildcard "ns1" "wild").state.networkPolicies =
      stWildcard.networkPolicies :=
  c9_amended_empty_rules_unready collabDNS stWildcard "ns1" "wild"
    [("tsuru.io/app-name", "web")] [] (by rfl) (by rfl) (by rfl)

/-- Claim C9 counterexample: on the wildcard-only ACL the pass does transition
to Unready on the empty rule list, but the recorded reason is the source
literal, not the string the claim quotes. -/
theorem c9_counterexample_reason_literal :
    (ACLReconcile collabDNS stWildcard "ns1" "wild").writes =
      [.aclStatusUpdate ⟨false, "No egress generated by spec.destinations", ""⟩] ∧
    "No egress generated by spec.destinations" ≠ "no egress generated" := by
  exact ⟨by decide, by decide⟩

/-- Claim C4: when the stored NetworkPolicy already equals the desired
document field-by-field — owner reference, policy types, pod selector and
egress rules — and already exists, reconciling the unchanged ACL again issues
zero create or update writes and zero status writes, leaves the store
untouched, and still returns the periodic requeue. -/
theorem c4_unchanged_policy_zero_writes (c : ACLCollab) (st : ClusterState)
    (reqNs reqName : String) (np : NetworkPolicy)
    (sel : List (String × String)) (rules0 rules : List NetworkPolicyEgressRule)
    (hsel : podSelectorForSource (fetchedACL st reqNs reqName).spec.source =
      some sel)
    (hnp : getNP st reqNs (npNameFor (fetchedACL st reqNs reqName) reqName) =
      some np)
    (hcts : np.creationTimestampIsZero = false)
    (hor : np.ownerReferences = [newControllerRef (fetchedACL st reqNs reqName)])
    (hpt : np.policyTypes = [.egress])
    (hps : np.podSelector = ⟨sel⟩)
    (hcr : computeEgressRules c (fetchedACL st reqNs reqName).spec.destinations =
      .ok rules0)
    (hfill : fillPodSelectorByCIDR c.getByIP rules0 = .ok rules)
    (hne : rules ≠ [])
    (heg : np.egress = rules) :
    (ACLReconcile c st reqNs reqName).writes = [] ∧
    (ACLReconcile c st reqNs reqName).state = st ∧
    (ACLReconcile c st reqNs reqName).result = ⟨true, requeueAfter⟩ := by
  obtain ⟨hns, hname⟩ := getNP_meta st reqNs _ np hnp
  have hAns := fetchedACL_ns st reqNs reqName sel hsel
  have hnp1 :
      ({ np with
          ns := (fetchedACL st reqNs reqName).ns,
          name := npNameFor (fetchedACL st reqNs reqName) reqName }) = np := by
    cases np
    simp only at hns hname
    simp [hAns, hns, hname]
  have hlen' : ((rules.length == 0) = true) = False := by
    cases rules with
    | nil => exact absurd rfl hne
    | cons a l => simp
  have hc1' : ((np.ownerReferences.length == 0) = true) = False := by
    simp [hor]
  have hc2' : (((np.policyTypes.length == 1 &&
      np.policyTypes.headD .ingress != .egress) ||
      np.policyTypes.length != 1) = true) = False := by
    simp [hpt]
  have hps' : (np.podSelector.matchLabels ≠ sel) = False := by
    simp [hps]
  have heg' : (np.egress ≠ rules) = False := by
    simp [heg]
  have hcts' : (np.creationTimestampIsZero = true) = False := by
    simp [hcts]
  refine ⟨?_, ?_, ?_⟩ <;>
    simp only [ACLReconcile, hsel, hcr, hfill, hnp, Option.getD_some, hnp1,
      hlen', hc1', hc2', hps', heg', hcts', if_false, Bool.false_eq_true]

/-- Claim C4 witness: reconciling the converged stWeb store again — where the
stored policy equals the desired one field-by-field — issues no write and
leaves the store unchanged. -/
theorem c4_unchanged_policy_zero_writes_witness :
    (ACLReconcile collabExternalIP stWebConverged "ns1" "myacl").writes = [] ∧
    (ACLReconcile collabExternalIP stWebConverged "ns1" "myacl").state =
      stWebConverged ∧
    (ACLReconcile collabExternalIP stWebConverged "ns1" "myacl").result =
      ⟨true, requeueAfter⟩ :=
  c4_unchanged_policy_zero_writes collabExternalIP stWebConverged "ns1" "myacl"
    npWebConverged [("tsuru.io/app-name", "web")]
    (egressRulesForExternalIP ⟨"10.0.0.5", []⟩)
    (egressRulesForExternalIP ⟨"10.0.0.5", []⟩)
    (by rfl) (by rfl) (by rfl) (by rfl) (by rfl) (by rfl) (by rfl) (by rfl)
    (by decide) (by rfl)

/-- Claim C1, failing input: on the app name My_App, which is not a legal
resource name, ensureTsuruAppAddress creates the address record with its spec
key equal to the sanitized resource name y--pp-0e86b84b26 rather than the
original app name, so the record the resolver later reads does not name the
app the destination names. -/
theorem c1_created_record_spec_key_sanitized :
    (ensureTsuruAppAddress (fun rs _ => rs) [] "My_App").1.map
        (fun r => r.spec.name) = [validResourceName "My_App"] ∧
    validResourceName "My_App" = "y--pp-0e86b84b26" ∧
    validResourceName "My_App" ≠ "My_App" := by
  refine ⟨?_, by decide, by decide⟩
  decide

end AclOp
